import Mathlib

/-!
Verification of `align_data/postprocess/format_for_fine_tuning.py`.

The script turns JSONL records (articles with nested comment lists) into
prompt/completion pairs.  We embed the Python data model shallowly:

* JSON-style values become the inductive `Value` (strings, integers,
  mutable sequences, mutable mappings); Python dicts become ordered
  association lists `Dict := List (String × Value)`.
* The fixed templates (`PROMPT_TEMPLATE`, `COMPLETION_TEMPLATE`,
  `COMMENT_TEMPLATE`) use Python `str.format` placeholders of the simple
  form `\x7bname\x7d`; we embed a template as the list of its literal and
  placeholder segments (`Tmpl`).
* Python exceptions relevant to this program become the inductive `Err`:
  `AttributeError` (calling `.replace` on a non-string), `KeyError`,
  `ValueError` (building `dict(..)` from a non-empty string) and
  `TypeError` (joining non-strings, iterating a non-iterable).  The
  `except (AttributeError, KeyError, ValueError)` clause of `write_entry`
  catches exactly the first three (`errCaught`).
* In-place mutation: `format_entry` copies the top level of its argument
  into a `defaultdict`, so the caller's mapping keeps its top-level
  entries but the *shared* sequence values under formatter keys have
  their mapping-shaped elements replaced in place by formatted strings.
  Each mutating function therefore returns, beside its result, the
  post-call state of its argument as seen through the caller's reference
  (the second `Dict`/`Value` component below).  The input data is a tree
  (no aliasing between distinct input records), which matches JSONL input.
-/

set_option autoImplicit false

namespace FineTune

/-- A Python/JSON value as handled by the script: strings, integers,
(mutable) sequences and (mutable) mappings. -/
inductive Value where
  | vstr (s : String)
  | vint (n : Int)
  | vlist (xs : List Value)
  | vobj (fields : List (String × Value))

/-- A Python dict: an insertion-ordered association list. -/
abbrev Dict := List (String × Value)

/-- The Python exception classes this program can raise. -/
inductive Err where
  | attributeError
  | keyError
  | valueError
  | typeError
  deriving DecidableEq, Repr

/-- `except (AttributeError, KeyError, ValueError)` in `write_entry`:
which exceptions the per-comment handler catches. -/
def errCaught : Err → Bool
  | .attributeError => true
  | .keyError => true
  | .valueError => true
  | .typeError => false

/-- First-match association lookup (Python dict keys are unique, so this
is dict indexing / `.get`). -/
def assocLookup {α : Type} : List (String × α) → String → Option α
  | [], _ => none
  | (k, v) :: rest, key => if k = key then some v else assocLookup rest key

/-- `d[key]` as an `Option` (i.e. `d.get(key)` returning `None` when absent). -/
def pyGet (d : Dict) (key : String) : Option Value :=
  assocLookup d key

/-- `d.get(key, dflt)`. -/
def pyGetD (d : Dict) (key : String) (dflt : Value) : Value :=
  (pyGet d key).getD dflt

/-- `d[key] = val`: replace the value at an existing key (keeping its
position) or append a new key at the end, like a Python dict assignment. -/
def pySet (d : Dict) (key : String) (val : Value) : Dict :=
  match d with
  | [] => [(key, val)]
  | (k, v) :: rest =>
    if k = key then (key, val) :: rest else (k, v) :: pySet rest key val

/-- One segment of a `str.format` template: a literal run or a
`\x7bname\x7d` placeholder. -/
inductive TItem where
  | lit (s : String)
  | field (name : String)

/-- A parsed `str.format` template. -/
abbrev Tmpl := List TItem

/-- `PROMPT_TEMPLATE` from the source, split into segments. -/
def PROMPT_TEMPLATE : Tmpl :=
  [.lit "\n", .field "title", .lit "\n\nby ", .field "authors",
   .lit "\nTags: ", .field "tags", .lit "\nVotes: ", .field "votes",
   .lit "\nKarma: ", .field "score", .lit "\n\n", .field "text",
   .lit "\n\n%%%\n\n"]

/-- `COMPLETION_TEMPLATE` from the source, split into segments. -/
def COMPLETION_TEMPLATE : Tmpl :=
  [.lit " ", .field "comments", .lit "\n\n%END%\n\n"]

/-- `COMMENT_TEMPLATE` from the source, split into segments. -/
def COMMENT_TEMPLATE : Tmpl :=
  [.lit "Comment by ", .field "authors", .lit "\nVotes: ", .field "votes",
   .lit "\nKarma: ", .field "score", .lit "\n\n", .field "text"]

/-- Escape a character for Python `repr` of a string (backslash, the
chosen quote, and common control characters; other characters print
as themselves). -/
def escChar (quote : Char) (c : Char) : String :=
  if c = Char.ofNat 92 then String.mk [Char.ofNat 92, Char.ofNat 92]
  else if c = quote then String.mk [Char.ofNat 92, quote]
  else if c = Char.ofNat 10 then String.mk [Char.ofNat 92, Char.ofNat 110]
  else if c = Char.ofNat 13 then String.mk [Char.ofNat 92, Char.ofNat 114]
  else if c = Char.ofNat 9 then String.mk [Char.ofNat 92, Char.ofNat 116]
  else String.singleton c

/-- Python `repr` of a string: single quotes, or double quotes when the
string contains a single quote but no double quote. -/
def reprStr (s : String) : String :=
  let q := if s.data.contains (Char.ofNat 39) && !(s.data.contains (Char.ofNat 34))
           then Char.ofNat 34 else Char.ofNat 39
  String.singleton q ++ String.join (s.data.map (escChar q)) ++ String.singleton q

mutual

/-- Python `repr` of a value (used by `str` for lists and dicts). -/
def pyRepr : Value → String
  | .vstr s => reprStr s
  | .vint n => toString n
  | .vlist xs => "[" ++ pyReprList xs ++ "]"
  | .vobj fs => "\x7b" ++ pyReprObj fs ++ "\x7d"

/-- Comma-separated `repr`s of list elements. -/
def pyReprList : List Value → String
  | [] => ""
  | [x] => pyRepr x
  | x :: rest => pyRepr x ++ ", " ++ pyReprList rest

/-- Comma-separated `repr`s of dict entries. -/
def pyReprObj : List (String × Value) → String
  | [] => ""
  | [(k, v)] => reprStr k ++ ": " ++ pyRepr v
  | (k, v) :: rest => reprStr k ++ ": " ++ pyRepr v ++ ", " ++ pyReprObj rest

end

/-- Python `str(value)` as applied by `str.format_map` when substituting a
placeholder. -/
def pyStr : Value → String
  | .vstr s => s
  | v => pyRepr v

/-- Render a template against a dict with `defaultdict(str, ...)` lookup:
a placeholder whose name is missing from the dict becomes the empty
string (this is `template.format_map(entry_with_default)`). -/
def render (t : Tmpl) (d : Dict) : String :=
  String.join (t.map fun it =>
    match it with
    | .lit s => s
    | .field n =>
      match pyGet d n with
      | some v => pyStr v
      | none => "")

/-- Python `str.replace` on character lists: left-to-right, non-overlapping
replacement of `old` by `new` (with Python's empty-pattern behaviour of
inserting `new` around every character).  The extra `fuel` argument only
makes the recursion structural: every step consumes at least one
character, so any `fuel ≥ l.length` computes the replacement
(`replaceFuel_fuel_irrelevant`), and `pyReplace` passes `l.length`. -/
def replaceFuel (old new : List Char) : Nat → List Char → List Char
  | _, [] => if old = [] then new else []
  | 0, l => l
  | fuel + 1, c :: rest =>
    if old = [] then new ++ c :: replaceFuel old new fuel rest
    else if old.isPrefixOf (c :: rest) then
      new ++ replaceFuel old new fuel ((c :: rest).drop old.length)
    else
      c :: replaceFuel old new fuel rest

/-- Python `s.replace(old, new)`. -/
def pyReplace (old new s : String) : String :=
  String.mk (replaceFuel old.data new.data s.data.length s.data)

/-- The pure-function field formatters appearing in `FIELD_FORMATTERS`
are all of the form `lambda s: s.replace(old, new)`. -/
inductive FieldFun where
  | replaceFn (old new : String)

/-- Apply a pure-function formatter to a field value.  `.replace` exists
only on strings; on any other value Python raises `AttributeError`. -/
def applyFieldFun : FieldFun → Value → Except Err String
  | .replaceFn old new, .vstr s => .ok (pyReplace old new s)
  | .replaceFn _ _, _ => .error .attributeError

/-- A field formatter: a template string or a callable. -/
inductive Formatter where
  | tmpl (t : Tmpl)
  | func (f : FieldFun)

/-- `FIELD_FORMATTERS` from the source. -/
def FIELD_FORMATTERS : List (String × Formatter) :=
  [("comments", .tmpl COMMENT_TEMPLATE),
   ("score", .func (.replaceFn "−" "-")),
   ("text", .func (.replaceFn "%%%" "---"))]

/-- Extract the strings of a list, failing with `TypeError` at the first
non-string element (the check `str.join` performs). -/
def strList : List Value → Except Err (List String)
  | [] => .ok []
  | .vstr s :: rest => (strList rest).map fun ss => s :: ss
  | _ :: _ => .error .typeError

/-- `"\n\n\n".join(value)`: every element must be a string, otherwise
Python raises `TypeError`. -/
def pyJoin (xs : List Value) : Except Err String :=
  (strList xs).map fun ss => String.intercalate "\n\n\n" ss

mutual

/-- The loop body of `format_fields` for one `key, value` pair, given the
formatter found for `key`.  Returns the new value stored under the key in
the (copied) dict being formatted, together with the post-call state of
the original `value` as seen through the caller's shared reference:

* a non-string mutable sequence has its mapping-shaped elements replaced
  in place by their formatted strings, then the joined string is stored
  in the copy (`value[i] = format_this_field(elem)`; `entry[key] = join`);
* otherwise `entry[key] = format_this_field(value)` only touches the
  copy, so the original value is unchanged.  A template formatter applied
  to a non-sequence value runs `format_entry(value, template)`, whose
  `defaultdict(str, value)` accepts a mapping, turns the empty string
  into an empty dict, raises `ValueError` on a non-empty string
  (dictionary update sequence elements of length 1) and `TypeError` on an
  integer (not iterable). -/
def formatPair (fmts : List (String × Formatter)) (k : String) (v : Value) :
    Except Err (Value × Value) :=
  match assocLookup fmts k with
  | none => .ok (v, v)
  | some fmt =>
    match v with
    | .vlist xs => do
      let xs' ← formatElems fmt xs
      let s ← pyJoin xs'
      .ok (.vstr s, .vlist xs')
    | .vobj fs =>
      match fmt with
      | .func f => (applyFieldFun f (.vobj fs)).map fun s => (.vstr s, .vobj fs)
      | .tmpl t =>
        (format_fields FIELD_FORMATTERS fs).map fun dp =>
          (.vstr (render t dp.1), .vobj dp.2)
    | .vstr s =>
      match fmt with
      | .func f => (applyFieldFun f (.vstr s)).map fun r => (.vstr r, .vstr s)
      | .tmpl t =>
        if s = "" then .ok (.vstr (render t []), .vstr "")
        else .error .valueError
    | .vint n =>
      match fmt with
      | .func f => (applyFieldFun f (.vint n)).map fun r => (.vstr r, .vint n)
      | .tmpl _ => .error .typeError

/-- The element loop of `format_fields` over a mutable-sequence value:
`value[i] = format_this_field(elem)` for every mapping-shaped element,
other elements left as they are.  A template formatter renders the
element via `format_entry(elem, template)` with the default
`FIELD_FORMATTERS`. -/
def formatElems (fmt : Formatter) : List Value → Except Err (List Value)
  | [] => .ok []
  | .vobj fs :: rest => do
    let s ←
      match fmt with
      | .func f => applyFieldFun f (.vobj fs)
      | .tmpl t => (format_fields FIELD_FORMATTERS fs).map fun dp => render t dp.1
    let r ← formatElems fmt rest
    .ok (.vstr s :: r)
  | e :: rest => do
    let r ← formatElems fmt rest
    .ok (e :: r)

/-- `format_fields(entry, formatters)` from the source, iterating the
entry's items in order.  Returns the final state of the dict being
formatted together with the post-call state of the caller's original
pairs (see `formatPair`); an exception aborts the remaining items. -/
def format_fields (fmts : List (String × Formatter)) : Dict →
    Except Err (Dict × Dict)
  | [] => .ok ([], [])
  | (k, v) :: rest => do
    let (v', pv) ← formatPair fmts k v
    let (r', rp) ← format_fields fmts rest
    .ok ((k, v') :: r', (k, pv) :: rp)

end

/-- `format_this_field(elem)` for a mapping-shaped sequence element, as
performed inside `formatElems`: a callable rule is applied directly, a
template rule runs `format_entry(elem, template)` (with the default
`FIELD_FORMATTERS`) and keeps the rendered string. -/
def applyElem (fmt : Formatter) (fs : List (String × Value)) :
    Except Err String :=
  match fmt with
  | .func f => applyFieldFun f (.vobj fs)
  | .tmpl t => (format_fields FIELD_FORMATTERS fs).map fun dp => render t dp.1

/-- `format_entry(entry, template)`: copy the entry into a
`defaultdict(str, ...)`, run `format_fields` on it with the default
`FIELD_FORMATTERS`, then `template.format_map` the result.  Returns the
rendered string and the post-call state of the caller's entry (its top
level is never mutated, only shared sequence values are). -/
def format_entry (entry : Dict) (t : Tmpl) : Except Err (String × Dict) :=
  (format_fields FIELD_FORMATTERS entry).map fun dp => (render t dp.1, dp.2)

/-- `format_prompt(entry)`. -/
def format_prompt (entry : Dict) : Except Err (String × Dict) :=
  format_entry entry PROMPT_TEMPLATE

/-- `format_completion(entry)`. -/
def format_completion (entry : Dict) : Except Err (String × Dict) :=
  format_entry entry COMPLETION_TEMPLATE

/-- One line written by `writer.write(output_entry)`:
`\x7b"prompt": ..., "completion": ...\x7d`. -/
structure OutputRecord where
  prompt : String
  completion : String
  deriving DecidableEq

/-- Python `for x in value`: lists iterate their elements, strings their
characters (as one-character strings), dicts their keys; an integer is
not iterable (`TypeError`). -/
def pyIterate : Value → Except Err (List Value)
  | .vlist xs => .ok xs
  | .vstr s => .ok (s.data.map fun c => .vstr (String.singleton c))
  | .vobj fs => .ok (fs.map fun kv => .vstr kv.1)
  | .vint _ => .error .typeError

/-- The `try` block of `write_entry` for one comment:
`entry_with_one_comment = dict(input_entry)` (a shallow copy),
`entry_with_one_comment["comments"] = [comment]` (a fresh one-element
list), then render the prompt and, on the same (mutated) entry, the
completion.  The post-state returned by `format_prompt` is the entry as
the second rendering pass sees it: the shared `[comment]` list has had a
mapping-shaped comment replaced in place by its formatted string.

The shallow copy shares the other field values with `input_entry`, but
under `FIELD_FORMATTERS` no shared value is ever successfully mutated:
the in-place element assignments for the `score`/`text` rules require
`applyFieldFun` to succeed on a mapping element, which always raises
`AttributeError`, and the `comments` rule operates on the fresh list.
So `input_entry` is unchanged between loop iterations and each comment
can be processed from the pristine `input_entry`. -/
def process_comment (input_entry : Dict) (comment : Value) :
    Except Err OutputRecord := do
  let e := pySet input_entry "comments" (.vlist [comment])
  let (prompt, post) ← format_prompt e
  let (completion, _) ← format_completion post
  .ok ⟨prompt, completion⟩

/-- The comment loop of `write_entry`: an exception caught by
`except (AttributeError, KeyError, ValueError)` skips just this comment;
any other exception propagates, leaving the records already written in
the output (first component) but producing no return value. -/
def write_entry_loop (input_entry : Dict) :
    List Value → List OutputRecord × Except Err Nat
  | [] => ([], .ok 0)
  | c :: rest =>
    match process_comment input_entry c with
    | .ok out =>
      let (outs, r) := write_entry_loop input_entry rest
      (out :: outs,
       match r with
       | .ok n => .ok (n + 1)
       | .error e => .error e)
    | .error e =>
      if errCaught e then write_entry_loop input_entry rest
      else ([], .error e)

/-- Whether processing one comment of `input_entry` succeeds (and hence
writes one output record). -/
def commentOk (input_entry : Dict) (c : Value) : Bool :=
  match process_comment input_entry c with
  | .ok _ => true
  | .error _ => false

/-- `write_entry(input_entry, writer)`: iterate
`input_entry.get("comments", [])`, writing one output record per comment
that formats successfully and returning `lines_written`.  The written
records stand in for the `writer` side effects. -/
def write_entry (input_entry : Dict) : List OutputRecord × Except Err Nat :=
  match pyIterate (pyGetD input_entry "comments" (.vlist [])) with
  | .error e => ([], .error e)
  | .ok comments => write_entry_loop input_entry comments

/-- One line of an input JSONL file as produced by `jsonlines.Reader`:
either a parsed dict or a malformed line (`InvalidLineError`). -/
inductive LineResult where
  | parsed (d : Dict)
  | malformed

/-- The filter test of `prepare_fine_tuning_entries`: the entry is kept
when `input_entry.get("source")` is a member of `sources`.  Membership
uses Python `==`, so only a string value can match a string filter
element; a missing or non-string `source` never matches. -/
def sourceMatches (sources : List String) (d : Dict) : Bool :=
  match pyGet d "source" with
  | some (.vstr s) => sources.contains s
  | _ => false

/-- The counters of `prepare_fine_tuning_entries`, plus the records
written to the output sink. -/
structure RunAcc where
  outputs : List OutputRecord
  linesRead : Nat
  linesWritten : Nat
  parseErrors : Nat
  deriving DecidableEq

/-- The per-line loop of `prepare_fine_tuning_entries` over one input
file: malformed lines are counted and skipped; a parsed line counts as
read, is dropped when a filter is given and its source does not match,
and is otherwise expanded by `write_entry`.  An uncaught exception from
`write_entry` aborts the run, keeping the records already written. -/
def processLines (sources : Option (List String)) :
    List LineResult → RunAcc × Option Err
  | [] => (⟨[], 0, 0, 0⟩, none)
  | .malformed :: rest =>
    let (acc, e) := processLines sources rest
    (⟨acc.outputs, acc.linesRead, acc.linesWritten, acc.parseErrors + 1⟩, e)
  | .parsed d :: rest =>
    let keep :=
      match sources with
      | none => true
      | some fs => sourceMatches fs d
    if keep then
      match write_entry d with
      | (outs, .ok n) =>
        let (acc, e) := processLines sources rest
        (⟨outs ++ acc.outputs, acc.linesRead + 1, n + acc.linesWritten,
          acc.parseErrors⟩, e)
      | (outs, .error err) => (⟨outs, 1, 0, 0⟩, some err)
    else
      let (acc, e) := processLines sources rest
      (⟨acc.outputs, acc.linesRead + 1, acc.linesWritten, acc.parseErrors⟩, e)

/-- `prepare_fine_tuning_entries(input_paths, output_path, sources)`:
process the input files in order into one output sink; an uncaught
exception aborts the whole run. -/
def prepare_fine_tuning_entries (files : List (List LineResult))
    (sources : Option (List String)) : RunAcc × Option Err :=
  match files with
  | [] => (⟨[], 0, 0, 0⟩, none)
  | f :: rest =>
    match processLines sources f with
    | (acc, some err) => (acc, some err)
    | (acc, none) =>
      let (acc2, e2) := prepare_fine_tuning_entries rest sources
      (⟨acc.outputs ++ acc2.outputs, acc.linesRead + acc2.linesRead,
        acc.linesWritten + acc2.linesWritten,
        acc.parseErrors + acc2.parseErrors⟩, e2)

/-! ## General lemmas about the embedding -/

theorem exceptBind_ok {ε α β : Type} (a : α) (f : α → Except ε β) :
    (Except.ok a >>= f : Except ε β) = f a := rfl

theorem exceptBind_error {ε α β : Type} (e : ε) (f : α → Except ε β) :
    (Except.error e >>= f : Except ε β) = .error e := rfl

theorem assocLookup_eq_none_iff {α : Type} (l : List (String × α)) (k : String) :
    assocLookup l k = none ↔ k ∉ l.map Prod.fst := by
  induction l with
  | nil => simp [assocLookup]
  | cons p rest ih =>
    obtain ⟨k', v⟩ := p
    by_cases hk : k' = k
    · subst hk
      simp [assocLookup]
    · simp [assocLookup, hk, ih, Ne.symm hk]

theorem assocLookup_append_not_mem {α : Type} (pre : List (String × α))
    (k : String) (x : α) (suf : List (String × α))
    (hk : k ∉ pre.map Prod.fst) :
    assocLookup (pre ++ (k, x) :: suf) k = some x := by
  induction pre with
  | nil => simp [assocLookup]
  | cons p rest ih =>
    obtain ⟨k', v⟩ := p
    simp only [List.map_cons, List.mem_cons] at hk
    push_neg at hk
    simp [assocLookup, Ne.symm hk.1, ih hk.2]

theorem format_fields_nil_ok (fmts : List (String × Formatter))
    (d' post : Dict) (h : format_fields fmts [] = .ok (d', post)) :
    d' = [] ∧ post = [] := by
  replace h : Except.ok (([], []) : Dict × Dict) = .ok (d', post) := h
  injection h with h
  exact ⟨congrArg Prod.fst h |>.symm, congrArg Prod.snd h |>.symm⟩

theorem format_fields_cons_ok (fmts : List (String × Formatter)) (k : String)
    (v : Value) (rest : Dict) (d' post : Dict)
    (h : format_fields fmts ((k, v) :: rest) = .ok (d', post)) :
    ∃ (v' pv : Value) (r' rpost : Dict),
      formatPair fmts k v = .ok (v', pv) ∧
      format_fields fmts rest = .ok (r', rpost) ∧
      d' = (k, v') :: r' ∧ post = (k, pv) :: rpost := by
  cases hp : formatPair fmts k v with
  | error e =>
    rw [show format_fields fmts ((k, v) :: rest) =
      (do
        let vp ← formatPair fmts k v
        let rp ← format_fields fmts rest
        Except.ok ((k, vp.1) :: rp.1, (k, vp.2) :: rp.2)) from rfl, hp] at h
    exact Except.noConfusion h
  | ok vp =>
    rw [show format_fields fmts ((k, v) :: rest) =
      (do
        let vp ← formatPair fmts k v
        let rp ← format_fields fmts rest
        Except.ok ((k, vp.1) :: rp.1, (k, vp.2) :: rp.2)) from rfl, hp] at h
    cases hr : format_fields fmts rest with
    | error e =>
      rw [hr] at h
      exact Except.noConfusion h
    | ok rp =>
      rw [hr] at h
      obtain ⟨v', pv⟩ := vp
      obtain ⟨r', rpost⟩ := rp
      replace h : Except.ok (((k, v') :: r', (k, pv) :: rpost) : Dict × Dict) =
        .ok (d', post) := h
      injection h with h
      exact ⟨v', pv, r', rpost, rfl, rfl,
        congrArg Prod.fst h |>.symm, congrArg Prod.snd h |>.symm⟩

theorem format_fields_fst (fmts : List (String × Formatter)) :
    ∀ (d d' post : Dict), format_fields fmts d = .ok (d', post) →
      d'.map Prod.fst = d.map Prod.fst ∧ post.map Prod.fst = d.map Prod.fst := by
  intro d
  induction d with
  | nil =>
    intro d' post h
    obtain ⟨h1, h2⟩ := format_fields_nil_ok fmts d' post h
    simp [h1, h2]
  | cons kv rest ih =>
    intro d' post h
    obtain ⟨k, v⟩ := kv
    obtain ⟨v', pv, r', rpost, hp, hr, h1, h2⟩ :=
      format_fields_cons_ok fmts k v rest d' post h
    obtain ⟨hr1, hr2⟩ := ih r' rpost hr
    subst h1 h2
    simp [hr1, hr2]

theorem format_fields_append_ok (fmts : List (String × Formatter)) :
    ∀ (pre : Dict) (k : String) (v : Value) (suf d' post : Dict),
      format_fields fmts (pre ++ (k, v) :: suf) = .ok (d', post) →
      ∃ (preD preP : Dict) (v' pv : Value) (sufD sufP : Dict),
        d' = preD ++ (k, v') :: sufD ∧
        post = preP ++ (k, pv) :: sufP ∧
        formatPair fmts k v = .ok (v', pv) ∧
        preD.map Prod.fst = pre.map Prod.fst ∧
        preP.map Prod.fst = pre.map Prod.fst := by
  intro pre
  induction pre with
  | nil =>
    intro k v suf d' post h
    rw [List.nil_append] at h
    obtain ⟨v', pv, r', rpost, hp, hr, h1, h2⟩ :=
      format_fields_cons_ok fmts k v suf d' post h
    exact ⟨[], [], v', pv, r', rpost, by simp [h1], by simp [h2], hp, rfl, rfl⟩
  | cons kv rest ih =>
    intro k v suf d' post h
    obtain ⟨k0, v0⟩ := kv
    rw [List.cons_append] at h
    obtain ⟨v0', pv0, r', rpost, hp, hr, h1, h2⟩ :=
      format_fields_cons_ok fmts k0 v0 (rest ++ (k, v) :: suf) d' post h
    obtain ⟨preD, preP, v', pv, sufD, sufP, e1, e2, e3, e4, e5⟩ :=
      ih k v suf r' rpost hr
    exact ⟨(k0, v0') :: preD, (k0, pv0) :: preP, v', pv, sufD, sufP,
      by simp [h1, e1], by simp [h2, e2], e3, by simp [e4], by simp [e5]⟩

theorem strList_ok : ∀ (xs : List Value) (ss : List String),
    strList xs = .ok ss → xs = ss.map Value.vstr := by
  intro xs
  induction xs with
  | nil =>
    intro ss h
    replace h : Except.ok ([] : List String) = .ok ss := h
    injection h with h
    simp [h.symm]
  | cons x rest ih =>
    intro ss h
    cases x with
    | vstr s =>
      cases hr : strList rest with
      | error e =>
        rw [show strList (Value.vstr s :: rest) =
          (strList rest).map (fun ss => s :: ss) from rfl, hr] at h
        exact Except.noConfusion h
      | ok ss0 =>
        rw [show strList (Value.vstr s :: rest) =
          (strList rest).map (fun ss => s :: ss) from rfl, hr] at h
        replace h : Except.ok (s :: ss0) = .ok ss := h
        injection h with h
        simp [h.symm, ih ss0 hr]
    | vint n => exact Except.noConfusion h
    | vlist ys => exact Except.noConfusion h
    | vobj fs => exact Except.noConfusion h

theorem formatElems_cons_vobj_ok (fmt : Formatter) (fs : List (String × Value))
    (rest xs' : List Value)
    (h : formatElems fmt (.vobj fs :: rest) = .ok xs') :
    ∃ s r, applyElem fmt fs = .ok s ∧ formatElems fmt rest = .ok r ∧
      xs' = .vstr s :: r := by
  have hstep : formatElems fmt (.vobj fs :: rest) = (do
      let s ← applyElem fmt fs
      let r ← formatElems fmt rest
      Except.ok (Value.vstr s :: r)) := by
    cases fmt <;> rfl
  rw [hstep] at h
  cases he : applyElem fmt fs with
  | error e =>
    rw [he, exceptBind_error] at h
    exact Except.noConfusion h
  | ok s =>
    rw [he, exceptBind_ok] at h
    cases hr : formatElems fmt rest with
    | error e =>
      rw [hr, exceptBind_error] at h
      exact Except.noConfusion h
    | ok r =>
      rw [hr, exceptBind_ok] at h
      replace h : Except.ok (Value.vstr s :: r) = .ok xs' := h
      injection h with h
      exact ⟨s, r, rfl, rfl, h.symm⟩

theorem formatElems_cons_other_ok (fmt : Formatter) (x : Value)
    (hx : ∀ fs, x ≠ .vobj fs) (rest xs' : List Value)
    (h : formatElems fmt (x :: rest) = .ok xs') :
    ∃ r, formatElems fmt rest = .ok r ∧ xs' = x :: r := by
  have hstep : formatElems fmt (x :: rest) = (do
      let r ← formatElems fmt rest
      Except.ok (x :: r)) := by
    cases x with
    | vobj fs => exact absurd rfl (hx fs)
    | vstr s => rfl
    | vint n => rfl
    | vlist ys => rfl
  rw [hstep] at h
  cases hr : formatElems fmt rest with
  | error e =>
    rw [hr, exceptBind_error] at h
    exact Except.noConfusion h
  | ok r =>
    rw [hr, exceptBind_ok] at h
    replace h : Except.ok (x :: r) = .ok xs' := h
    injection h with h
    exact ⟨r, rfl, h.symm⟩

theorem formatElems_forall2 (fmt : Formatter) :
    ∀ (xs xs' : List Value), formatElems fmt xs = .ok xs' →
      List.Forall₂ (fun o r =>
        ((∀ fs, o ≠ Value.vobj fs) ∧ r = o) ∨
        (∃ fs s, o = Value.vobj fs ∧ r = Value.vstr s ∧
          applyElem fmt fs = .ok s)) xs xs' := by
  intro xs
  induction xs with
  | nil =>
    intro xs' h
    replace h : Except.ok ([] : List Value) = .ok xs' := h
    injection h with h
    rw [h.symm]
    exact List.Forall₂.nil
  | cons x rest ih =>
    intro xs' h
    cases x with
    | vobj fs =>
      obtain ⟨s, r, he, hr, hxs⟩ := formatElems_cons_vobj_ok fmt fs rest xs' h
      rw [hxs]
      exact List.Forall₂.cons (Or.inr ⟨fs, s, rfl, rfl, he⟩) (ih r hr)
    | vstr s =>
      obtain ⟨r, hr, hxs⟩ := formatElems_cons_other_ok fmt (.vstr s)
        (fun fs hfs => Value.noConfusion hfs) rest xs' h
      rw [hxs]
      exact List.Forall₂.cons (Or.inl ⟨fun fs hfs => Value.noConfusion hfs, rfl⟩)
        (ih r hr)
    | vint n =>
      obtain ⟨r, hr, hxs⟩ := formatElems_cons_other_ok fmt (.vint n)
        (fun fs hfs => Value.noConfusion hfs) rest xs' h
      rw [hxs]
      exact List.Forall₂.cons (Or.inl ⟨fun fs hfs => Value.noConfusion hfs, rfl⟩)
        (ih r hr)
    | vlist ys =>
      obtain ⟨r, hr, hxs⟩ := formatElems_cons_other_ok fmt (.vlist ys)
        (fun fs hfs => Value.noConfusion hfs) rest xs' h
      rw [hxs]
      exact List.Forall₂.cons (Or.inl ⟨fun fs hfs => Value.noConfusion hfs, rfl⟩)
        (ih r hr)

theorem formatElems_id_of_no_vobj (fmt : Formatter) :
    ∀ xs : List Value, (∀ fs, Value.vobj fs ∉ xs) →
      formatElems fmt xs = .ok xs := by
  intro xs
  induction xs with
  | nil => intro _; rfl
  | cons x rest ih =>
    intro h
    have hx : ∀ fs, x ≠ .vobj fs := by
      intro fs hfs
      exact h fs (hfs ▸ List.mem_cons_self x rest)
    have hstep : formatElems fmt (x :: rest) = (do
        let r ← formatElems fmt rest
        Except.ok (x :: r)) := by
      cases x with
      | vobj fs => exact absurd rfl (hx fs)
      | vstr s => rfl
      | vint n => rfl
      | vlist ys => rfl
    rw [hstep, ih (fun fs hm => h fs (List.mem_cons_of_mem _ hm)), exceptBind_ok]

theorem no_vobj_of_map_vstr (ss : List String) :
    ∀ fs, Value.vobj fs ∉ ss.map Value.vstr := by
  intro fs hm
  obtain ⟨s, _, hs⟩ := List.mem_map.mp hm
  exact Value.noConfusion hs

theorem pyJoin_ok (xs : List Value) (s : String) (h : pyJoin xs = .ok s) :
    ∃ ss : List String, xs = ss.map Value.vstr ∧
      s = String.intercalate "\n\n\n" ss := by
  cases hs : strList xs with
  | error e =>
    rw [show pyJoin xs = (strList xs).map
      (fun ss => String.intercalate "\n\n\n" ss) from rfl, hs] at h
    exact Except.noConfusion h
  | ok ss =>
    rw [show pyJoin xs = (strList xs).map
      (fun ss => String.intercalate "\n\n\n" ss) from rfl, hs] at h
    replace h : Except.ok (String.intercalate "\n\n\n" ss) = .ok s := h
    injection h with h
    exact ⟨ss, strList_ok xs ss hs, h.symm⟩

theorem strList_of_map (ss : List String) :
    strList (ss.map Value.vstr) = .ok ss := by
  induction ss with
  | nil => rfl
  | cons s rest ih =>
    rw [List.map_cons,
      show strList (Value.vstr s :: rest.map Value.vstr) =
        (strList (rest.map Value.vstr)).map (fun ss => s :: ss) from rfl, ih]
    rfl

mutual

/-- After a successful `formatPair`, the recorded post-state of the
original value is a fixed point: formatting it again succeeds with the
same stored value and the same post-state.  This is why the in-place
mutation performed by the prompt pass is invisible to the completion
pass. -/
theorem formatPair_fix (fmts : List (String × Formatter)) (k : String) :
    ∀ (v v' pv : Value), formatPair fmts k v = .ok (v', pv) →
      formatPair fmts k pv = .ok (v', pv)
  | v, v', pv, h => by
    have h0 := h
    rw [formatPair.eq_def] at h
    cases hf : assocLookup fmts k with
    | none =>
      rw [hf] at h
      replace h : Except.ok (v, v) = .ok (v', pv) := h
      injection h with h
      injection h with h1 h2
      subst h1
      subst h2
      exact h0
    | some fmt =>
      rw [hf] at h
      cases v with
      | vlist xs =>
        replace h : (do
            let xs' ← formatElems fmt xs
            let s ← pyJoin xs'
            Except.ok ((Value.vstr s, Value.vlist xs') : Value × Value)) =
          .ok (v', pv) := h
        cases he : formatElems fmt xs with
        | error e =>
          rw [he, exceptBind_error] at h
          exact Except.noConfusion h
        | ok xs' =>
          rw [he, exceptBind_ok] at h
          cases hj : pyJoin xs' with
          | error e =>
            rw [hj, exceptBind_error] at h
            exact Except.noConfusion h
          | ok s =>
            rw [hj, exceptBind_ok] at h
            replace h : Except.ok ((Value.vstr s, Value.vlist xs') :
              Value × Value) = .ok (v', pv) := h
            injection h with h
            injection h with h1 h2
            subst h1
            subst h2
            obtain ⟨ss, hss, _⟩ := pyJoin_ok xs' s hj
            have hnov : ∀ fs, Value.vobj fs ∉ xs' :=
              hss ▸ no_vobj_of_map_vstr ss
            have hgoal : formatPair fmts k (Value.vlist xs') = (do
                let ys ← formatElems fmt xs'
                let s ← pyJoin ys
                Except.ok ((Value.vstr s, Value.vlist ys) :
                  Value × Value)) := by
              rw [formatPair.eq_def, hf]
            rw [hgoal, formatElems_id_of_no_vobj fmt xs' hnov, exceptBind_ok,
              hj, exceptBind_ok]
      | vobj fs =>
        cases fmt with
        | func f =>
          cases f with
          | replaceFn old new =>
            replace h : Except.map
                (fun s => ((Value.vstr s, Value.vobj fs) : Value × Value))
                (Except.error Err.attributeError) = .ok (v', pv) := h
            exact Except.noConfusion h
        | tmpl t =>
          replace h : Except.map
              (fun dp => ((Value.vstr (render t dp.1), Value.vobj dp.2) :
                Value × Value))
              (format_fields FIELD_FORMATTERS fs) = .ok (v', pv) := h
          cases hff : format_fields FIELD_FORMATTERS fs with
          | error e =>
            rw [hff] at h
            exact Except.noConfusion h
          | ok dp =>
            rw [hff] at h
            obtain ⟨d1, post1⟩ := dp
            replace h : Except.ok ((Value.vstr (render t d1),
              Value.vobj post1) : Value × Value) = .ok (v', pv) := h
            injection h with h
            injection h with h1 h2
            subst h1
            subst h2
            have hfix := format_fields_fix FIELD_FORMATTERS fs d1 post1 hff
            have hgoal : formatPair fmts k (Value.vobj post1) =
                Except.map (fun dp =>
                  ((Value.vstr (render t dp.1), Value.vobj dp.2) :
                    Value × Value))
                  (format_fields FIELD_FORMATTERS post1) := by
              rw [formatPair.eq_def, hf]
            rw [hgoal, hfix]
            rfl
      | vstr s =>
        cases fmt with
        | func f =>
          cases f with
          | replaceFn old new =>
            replace h : Except.ok ((Value.vstr (pyReplace old new s),
              Value.vstr s) : Value × Value) = .ok (v', pv) := h
            injection h with h
            injection h with h1 h2
            subst h1
            subst h2
            exact h0
        | tmpl t =>
          by_cases hs : s = ""
          · subst hs
            replace h : Except.ok ((Value.vstr (render t []), Value.vstr "") :
              Value × Value) = .ok (v', pv) := h
            injection h with h
            injection h with h1 h2
            subst h1
            subst h2
            exact h0
          · replace h : (if s = "" then
                Except.ok ((Value.vstr (render t []), Value.vstr "") :
                  Value × Value)
              else Except.error Err.valueError) = .ok (v', pv) := h
            rw [if_neg hs] at h
            exact Except.noConfusion h
      | vint n =>
        cases fmt with
        | func f =>
          cases f with
          | replaceFn old new =>
            replace h : Except.map
                (fun r => ((Value.vstr r, Value.vint n) : Value × Value))
                (Except.error Err.attributeError) = .ok (v', pv) := h
            exact Except.noConfusion h
        | tmpl t =>
          replace h : (Except.error Err.typeError :
            Except Err (Value × Value)) = .ok (v', pv) := h
          exact Except.noConfusion h

/-- After a successful `format_fields`, the recorded post-state of the
caller's dict is a fixed point of `format_fields`. -/
theorem format_fields_fix (fmts : List (String × Formatter)) :
    ∀ (d d' post : Dict), format_fields fmts d = .ok (d', post) →
      format_fields fmts post = .ok (d', post)
  | [], d', post, h => by
    obtain ⟨h1, h2⟩ := format_fields_nil_ok fmts d' post h
    rw [h1, h2]
    rfl
  | (k, v) :: rest, d', post, h => by
    obtain ⟨v', pv, r', rpost, hp, hr, h1, h2⟩ :=
      format_fields_cons_ok fmts k v rest d' post h
    rw [h1, h2]
    have hp' := formatPair_fix fmts k v v' pv hp
    have hr' := format_fields_fix fmts rest r' rpost hr
    rw [show format_fields fmts ((k, pv) :: rpost) = (do
        let vp ← formatPair fmts k pv
        let rp ← format_fields fmts rpost
        Except.ok (((k, vp.1) :: rp.1, (k, vp.2) :: rp.2) : Dict × Dict))
      from rfl, hp', exceptBind_ok, hr', exceptBind_ok]

end

theorem write_entry_loop_cons (entry : Dict) (c : Value) (rest : List Value) :
    write_entry_loop entry (c :: rest) =
      match process_comment entry c with
      | .ok out =>
        (out :: (write_entry_loop entry rest).1,
         match (write_entry_loop entry rest).2 with
         | .ok n => .ok (n + 1)
         | .error e => .error e)
      | .error e =>
        if errCaught e then write_entry_loop entry rest
        else ([], .error e) := by
  cases hw : write_entry_loop entry rest with
  | mk outs r =>
    cases hc : process_comment entry c with
    | ok out => simp [write_entry_loop, hc, hw]
    | error e => simp [write_entry_loop, hc, hw]

theorem write_entry_loop_count (entry : Dict) :
    ∀ xs : List Value,
      (∀ c ∈ xs, ∀ e, process_comment entry c = .error e → errCaught e = true) →
      ∃ outs : List OutputRecord,
        write_entry_loop entry xs = (outs, .ok outs.length) ∧
        outs.length = xs.length - xs.countP (fun c => !(commentOk entry c)) := by
  intro xs
  induction xs with
  | nil => intro _; exact ⟨[], rfl, rfl⟩
  | cons c rest ih =>
    intro h
    obtain ⟨outs, h1, h2⟩ := ih (fun c' hc' => h c' (List.mem_cons_of_mem _ hc'))
    have hle : List.countP (fun c => !(commentOk entry c)) rest ≤ rest.length :=
      List.countP_le_length _
    cases hc : process_comment entry c with
    | ok out =>
      have hok : commentOk entry c = true := by simp [commentOk, hc]
      refine ⟨out :: outs, ?_, ?_⟩
      · rw [write_entry_loop_cons, hc, h1]
        simp
      · rw [List.countP_cons]
        simp [hok]
        omega
    | error e =>
      have hcaught : errCaught e = true := h c (List.mem_cons_self c rest) e hc
      have hok : commentOk entry c = false := by simp [commentOk, hc]
      refine ⟨outs, ?_, ?_⟩
      · rw [write_entry_loop_cons, hc]
        simp [hcaught, h1]
      · rw [List.countP_cons]
        simp [hok]
        omega

theorem write_entry_loop_filterMap (entry : Dict) :
    ∀ xs : List Value,
      (∀ c ∈ xs, ∀ e, process_comment entry c = .error e → errCaught e = true) →
      (write_entry_loop entry xs).1 =
        xs.filterMap fun c => (process_comment entry c).toOption := by
  intro xs
  induction xs with
  | nil => intro _; rfl
  | cons c rest ih =>
    intro h
    have hrest := ih (fun c' hc' => h c' (List.mem_cons_of_mem _ hc'))
    cases hc : process_comment entry c with
    | ok out =>
      rw [write_entry_loop_cons, hc, List.filterMap_cons, hc]
      simp [Except.toOption, hrest]
    | error e =>
      have hcaught : errCaught e = true := h c (List.mem_cons_self c rest) e hc
      rw [write_entry_loop_cons, hc, List.filterMap_cons, hc]
      simp [Except.toOption, hcaught, hrest]

theorem replaceFuel_fuel_irrelevant (old new : List Char) :
    ∀ (fuel fuel' : Nat) (l : List Char), l.length ≤ fuel → l.length ≤ fuel' →
      replaceFuel old new fuel l = replaceFuel old new fuel' l := by
  intro fuel
  induction fuel with
  | zero =>
    intro fuel' l hl _
    have : l = [] := List.length_eq_zero.mp (Nat.le_zero.mp hl)
    subst this
    cases fuel' <;> rfl
  | succ fuel ih =>
    intro fuel' l hl hl'
    cases l with
    | nil => cases fuel' <;> rfl
    | cons c rest =>
      cases fuel' with
      | zero => simp at hl'
      | succ fuel' =>
        simp only [replaceFuel]
        by_cases ho : old = []
        · rw [if_pos ho, if_pos ho,
            ih fuel' rest (by simpa using hl) (by simpa using hl')]
        · rw [if_neg ho, if_neg ho]
          by_cases hp : old.isPrefixOf (c :: rest)
          · have hop : 0 < old.length := List.length_pos.mpr ho
            rw [if_pos hp, if_pos hp, ih fuel' ((c :: rest).drop old.length)
              (by simp at hl ⊢; omega) (by simp at hl' ⊢; omega)]
          · rw [if_neg hp, if_neg hp,
              ih fuel' rest (by simpa using hl) (by simpa using hl')]

theorem replaceFuel_single (a b : Char) :
    ∀ (fuel : Nat) (l : List Char), l.length ≤ fuel →
      replaceFuel [a] [b] fuel l = l.map fun c => if c = a then b else c := by
  intro fuel
  induction fuel with
  | zero =>
    intro l hl
    have : l = [] := List.length_eq_zero.mp (Nat.le_zero.mp hl)
    subst this
    rfl
  | succ fuel ih =>
    intro l hl
    cases l with
    | nil => rfl
    | cons c rest =>
      have hrest : rest.length ≤ fuel := by simpa using hl
      simp only [replaceFuel]
      rw [if_neg (by simp : ¬([a] : List Char) = [])]
      by_cases hca : c = a
      · subst hca
        rw [if_pos (by simp [List.isPrefixOf])]
        simp [ih rest hrest]
      · rw [if_neg (by simp [List.isPrefixOf, Ne.symm hca, hca])]
        simp [ih rest hrest, hca]

theorem pyReplace_minus (s : String) :
    pyReplace "−" "-" s =
      String.mk (s.data.map fun c => if c = '−' then '-' else c) := by
  have h := replaceFuel_single '−' '-' s.data.length s.data (le_refl _)
  unfold pyReplace
  rw [show ("−" : String).data = ['−'] from rfl,
    show ("-" : String).data = ['-'] from rfl, h]

/-! ## The claims -/

/-- C6: for every input record whose `comments` field is absent or is an
empty sequence, expansion (`write_entry`) produces zero output records
and returns 0. -/
theorem claim6_no_comments_no_output (entry : Dict)
    (h : pyGet entry "comments" = none ∨
      pyGet entry "comments" = some (.vlist [])) :
    write_entry entry = ([], .ok 0) := by
  rcases h with h | h <;>
    simp [write_entry, pyGetD, h, pyIterate, write_entry_loop]

theorem claim6_witness :
    write_entry [] = ([], Except.ok 0) ∧
    write_entry [("comments", Value.vlist [])] = ([], Except.ok 0) :=
  ⟨claim6_no_comments_no_output [] (Or.inl rfl),
   claim6_no_comments_no_output [("comments", Value.vlist [])] (Or.inr rfl)⟩

/-- C3 (amended): an error of a kind caught by the
`except (AttributeError, KeyError, ValueError)` clause while processing
one comment skips exactly that comment: the loop continues with the
remaining comments and its result is unchanged.  (Errors of other kinds,
e.g. `TypeError`, are not contained: see the counterexample.) -/
theorem claim3_caught_error_skips_comment (entry : Dict) (c : Value)
    (rest : List Value) (e : Err)
    (hc : process_comment entry c = .error e)
    (hcaught : errCaught e = true) :
    write_entry_loop entry (c :: rest) = write_entry_loop entry rest := by
  rw [write_entry_loop_cons, hc]
  simp [hcaught]

theorem claim3_witness :
    write_entry_loop [] [Value.vobj [("score", Value.vint 0)]] =
      write_entry_loop [] [] :=
  claim3_caught_error_skips_comment [] (Value.vobj [("score", Value.vint 0)])
    [] Err.attributeError rfl rfl

/-- C3 counterexample: a comment that is not a mapping and not a string
(here the integer 7) makes `"\n\n\n".join` raise `TypeError`, which the
`except` clause does not catch: `write_entry` aborts the whole record
(the following well-formed comment `{}` is never processed and
nothing is returned) and the exception escapes to the caller. -/
theorem claim3_counterexample :
    write_entry [("comments", Value.vlist [Value.vint 7, Value.vobj []])] =
      ([], Except.error Err.typeError) := rfl

/-- C7: with a source filter, a parsed record is dropped before
expansion (contributing no output records and no written lines) unless
its `source` field is a string belonging to the filter list (exact,
case-sensitive string comparison, stated by the first conjunct);
matching records are expanded normally by `write_entry`. -/
theorem claim7_source_filter (fs : List String) (d : Dict)
    (rest : List LineResult) :
    (sourceMatches fs d = true ↔
      ∃ s, pyGet d "source" = some (.vstr s) ∧ s ∈ fs) ∧
    (sourceMatches fs d = false →
      processLines (some fs) (.parsed d :: rest) =
        (⟨(processLines (some fs) rest).1.outputs,
          (processLines (some fs) rest).1.linesRead + 1,
          (processLines (some fs) rest).1.linesWritten,
          (processLines (some fs) rest).1.parseErrors⟩,
         (processLines (some fs) rest).2)) ∧
    (sourceMatches fs d = true →
      (processLines (some fs) (.parsed d :: rest)).1.outputs =
        (write_entry d).1 ++
          (match (write_entry d).2 with
           | .ok _ => (processLines (some fs) rest).1.outputs
           | .error _ => [])) := by
  refine ⟨?_, ?_, ?_⟩
  · cases hg : pyGet d "source" with
    | none => simp [sourceMatches, hg]
    | some v =>
      cases v with
      | vstr s => simp [sourceMatches, hg, List.elem_iff]
      | vint n => simp [sourceMatches, hg]
      | vlist xs => simp [sourceMatches, hg]
      | vobj fsv => simp [sourceMatches, hg]
  · intro hsm
    cases hpr : processLines (some fs) rest with
    | mk acc e => simp [processLines, hsm, hpr]
  · intro hsm
    cases hw : write_entry d with
    | mk outs r =>
      cases r with
      | ok n =>
        cases hpr : processLines (some fs) rest with
        | mk acc e => simp [processLines, hsm, hw, hpr]
      | error err => simp [processLines, hsm, hw]

theorem claim7_witness :
    (processLines (some ["lesswrong"])
      [.parsed [("source", Value.vstr "arxiv"),
                ("comments", Value.vlist [Value.vobj []])]]).1.outputs = [] ∧
    sourceMatches ["lesswrong"]
      [("source", Value.vstr "arxiv"),
       ("comments", Value.vlist [Value.vobj []])] = false ∧
    sourceMatches ["lesswrong"] [("source", Value.vstr "lesswrong")] = true := by
  refine ⟨?_, rfl, rfl⟩
  have h := (claim7_source_filter ["lesswrong"]
    [("source", Value.vstr "arxiv"),
     ("comments", Value.vlist [Value.vobj []])] []).2.1 rfl
  rw [h]
  rfl

/-- C8: the `score` rule of `FIELD_FORMATTERS` is
`lambda s: s.replace("−", "-")`; on a string it replaces every
occurrence of the Unicode minus sign U+2212 by the ASCII hyphen and
changes no other character (the pointwise-map characterisation), it is
the identity on strings free of U+2212, and applying it twice equals
applying it once. -/
theorem claim8_score_replace :
    assocLookup FIELD_FORMATTERS "score" =
      some (.func (.replaceFn "−" "-")) ∧
    (∀ s : String, applyFieldFun (.replaceFn "−" "-") (.vstr s) =
      .ok (String.mk (s.data.map fun c => if c = '−' then '-' else c))) ∧
    (∀ s : String, (∀ c ∈ s.data, c ≠ '−') → pyReplace "−" "-" s = s) ∧
    (∀ s : String, pyReplace "−" "-" (pyReplace "−" "-" s) =
      pyReplace "−" "-" s) := by
  refine ⟨rfl, ?_, ?_, ?_⟩
  · intro s
    rw [show applyFieldFun (.replaceFn "−" "-") (.vstr s) =
      .ok (pyReplace "−" "-" s) from rfl, pyReplace_minus]
  · intro s hs
    rw [pyReplace_minus]
    have hm : s.data.map (fun c => if c = '−' then '-' else c) = s.data := by
      conv_rhs => rw [← List.map_id s.data]
      exact List.map_congr_left fun c hc => if_neg (hs c hc)
    rw [hm]
  · intro s
    rw [pyReplace_minus s, pyReplace_minus]
    show String.mk (((s.data.map fun c => if c = '−' then '-' else c)).map
      fun c => if c = '−' then '-' else c) = _
    rw [List.map_map]
    refine congrArg String.mk (List.map_congr_left fun c _ => ?_)
    by_cases hc : c = '−'
    · simp [Function.comp, hc]
    · simp [Function.comp, hc]

theorem claim8_witness :
    pyReplace "−" "-" "ab" = "ab" ∧
    pyReplace "−" "-" (pyReplace "−" "-" "a−b") =
      pyReplace "−" "-" "a−b" :=
  ⟨claim8_score_replace.2.2.1 "ab" (by decide),
   claim8_score_replace.2.2.2 "a−b"⟩

/-- C1 (amended): for a record whose `comments` field holds a sequence
of k comments, if no comment fails with an uncaught exception kind, then
`write_entry` writes exactly k − m output records, where m is the number
of comments whose processing fails (necessarily with a caught
`AttributeError`/`KeyError`/`ValueError`), and its return value equals
the number of records written.  (If some comment fails with an uncaught
kind, e.g. `TypeError`, `write_entry` raises instead of returning: see
the counterexample.) -/
theorem claim1_fanout_count (entry : Dict) (xs : List Value)
    (hc : pyGet entry "comments" = some (.vlist xs))
    (h : ∀ c ∈ xs, ∀ e, process_comment entry c = .error e →
      errCaught e = true) :
    ∃ outs : List OutputRecord,
      write_entry entry = (outs, .ok outs.length) ∧
      outs.length = xs.length - xs.countP (fun c => !(commentOk entry c)) := by
  obtain ⟨outs, h1, h2⟩ := write_entry_loop_count entry xs h
  refine ⟨outs, ?_, h2⟩
  rw [show write_entry entry =
    (match pyIterate (pyGetD entry "comments" (.vlist [])) with
     | .error e => ([], .error e)
     | .ok comments => write_entry_loop entry comments) from rfl]
  rw [show pyGetD entry "comments" (.vlist []) = Value.vlist xs from by
    rw [pyGetD, hc]; rfl]
  exact h1

/-- C1 counterexample: the record
`{"comments": [0, {}]}` has k = 2 comments of which the
first fails formatting (m = 1), so the claim predicts 2 − 1 = 1 output
record and a return value of 1; the code instead writes nothing and
raises `TypeError` (which is not caught), so there is no return value at
all. -/
theorem claim1_counterexample :
    write_entry [("comments", Value.vlist [Value.vint 0, Value.vobj []])] =
      ([], Except.error Err.typeError) := rfl

theorem claim1_witness :
    ∃ outs : List OutputRecord,
      write_entry [("comments",
        Value.vlist [Value.vobj [], Value.vobj [("score", Value.vint 0)]])] =
        (outs, Except.ok outs.length) ∧
      outs.length = 1 := by
  have hyp : ∀ c ∈ [Value.vobj [], Value.vobj [("score", Value.vint 0)]],
      ∀ e, process_comment
        [("comments",
          Value.vlist [Value.vobj [], Value.vobj [("score", Value.vint 0)]])]
        c = .error e → errCaught e = true := by
    intro c hcm e he
    rcases List.mem_cons.mp hcm with h0 | hcm
    · subst h0
      exact Except.noConfusion he
    · rcases List.mem_cons.mp hcm with h0 | hcm
      · subst h0
        replace he : Except.error Err.attributeError = Except.error e := he
        injection he with he
        rw [← he]
        rfl
      · exact absurd hcm (List.not_mem_nil c)
  obtain ⟨outs, h1, h2⟩ := claim1_fanout_count
    [("comments",
      Value.vlist [Value.vobj [], Value.vobj [("score", Value.vint 0)]])]
    [Value.vobj [], Value.vobj [("score", Value.vint 0)]] rfl hyp
  exact ⟨outs, h1, h2⟩

/-- C9: an output record is written for a comment exactly when
`process_comment` (which renders the prompt and then the completion, and
only then builds the output entry) succeeds on it: under the caught
error kinds, the written records are precisely the successful results,
in order, failing comments contributing nothing (not even a partial
entry) and leaving the records of the other comments untouched. -/
theorem claim9_output_iff_success (entry : Dict) (xs : List Value)
    (hc : pyGet entry "comments" = some (.vlist xs))
    (h : ∀ c ∈ xs, ∀ e, process_comment entry c = .error e →
      errCaught e = true) :
    (write_entry entry).1 =
      xs.filterMap fun c => (process_comment entry c).toOption := by
  rw [show write_entry entry =
    (match pyIterate (pyGetD entry "comments" (.vlist [])) with
     | .error e => ([], .error e)
     | .ok comments => write_entry_loop entry comments) from rfl]
  rw [show pyGetD entry "comments" (.vlist []) = Value.vlist xs from by
    rw [pyGetD, hc]; rfl]
  exact write_entry_loop_filterMap entry xs h

theorem claim9_witness :
    (write_entry [("comments",
      Value.vlist [Value.vobj [("text", Value.vint 3)], Value.vobj []])]).1 =
      [Value.vobj [("text", Value.vint 3)], Value.vobj []].filterMap
        fun c => (process_comment
          [("comments", Value.vlist
            [Value.vobj [("text", Value.vint 3)], Value.vobj []])]
          c).toOption := by
  refine claim9_output_iff_success _ _ rfl ?_
  intro c hcm e he
  rcases List.mem_cons.mp hcm with h0 | hcm
  · subst h0
    replace he : Except.error Err.attributeError = Except.error e := he
    injection he with he
    rw [← he]
    rfl
  · rcases List.mem_cons.mp hcm with h0 | hcm
    · subst h0
      exact Except.noConfusion he
    · exact absurd hcm (List.not_mem_nil c)

/-- C2: rendering a template against a record never raises because of a
placeholder whose name has no key in the record: whenever the
field-formatting phase succeeds, `format_entry` succeeds (the
`format_map` phase is total), and every placeholder whose name is
missing from the record renders exactly like an empty-string literal in
its position. -/
theorem claim2_missing_placeholder_empty (t : Tmpl) (entry d' post : Dict)
    (h : format_fields FIELD_FORMATTERS entry = .ok (d', post)) :
    format_entry entry t = .ok (render t d', post) ∧
    render t d' = render (t.map fun it =>
      match it with
      | TItem.field n =>
        if (pyGet entry n).isNone then TItem.lit "" else TItem.field n
      | TItem.lit s => TItem.lit s) d' := by
  constructor
  · rw [show format_entry entry t =
      (format_fields FIELD_FORMATTERS entry).map
        (fun dp => (render t dp.1, dp.2)) from rfl, h]
    rfl
  · unfold render
    rw [List.map_map]
    refine congrArg String.join (List.map_congr_left fun it _ => ?_)
    cases it with
    | lit s => rfl
    | field n =>
      cases hn : pyGet entry n with
      | none =>
        have hd : pyGet d' n = none := by
          have hk := (format_fields_fst FIELD_FORMATTERS entry d' post h).1
          unfold pyGet at hn ⊢
          rw [assocLookup_eq_none_iff] at hn ⊢
          rw [hk]
          exact hn
        simp [Function.comp, hn, hd]
      | some v => simp [Function.comp, hn]

theorem claim2_witness :
    format_entry [] [TItem.field "zzz"] = .ok ("", []) ∧
    render [TItem.field "zzz"] [] = render [TItem.lit ""] [] := by
  have h := claim2_missing_placeholder_empty [TItem.field "zzz"] [] [] [] rfl
  exact ⟨h.1, h.2⟩

/-- C4 (amended): for a field whose name has a pure-function rule and
whose value is not a (non-string) mutable sequence, `format_fields`
applies the function directly to the field value and stores the
function's string result under the key, leaving the caller's original
value unmutated.  (For a sequence-shaped value the function is not
applied to the value itself: the code takes the per-element branch
instead, see the counterexample.) -/
theorem claim4_function_rule_applied (fmts : List (String × Formatter))
    (pre suf d' post : Dict) (k : String) (v : Value) (f : FieldFun)
    (hk : k ∉ pre.map Prod.fst)
    (hf : assocLookup fmts k = some (.func f))
    (hv : ∀ xs, v ≠ .vlist xs)
    (h : format_fields fmts (pre ++ (k, v) :: suf) = .ok (d', post)) :
    ∃ s, applyFieldFun f v = .ok s ∧
      pyGet d' k = some (.vstr s) ∧ pyGet post k = some v := by
  obtain ⟨preD, preP, v', pv, sufD, sufP, e1, e2, e3, e4, e5⟩ :=
    format_fields_append_ok fmts pre k v suf d' post h
  rw [formatPair.eq_def, hf] at e3
  have hkD : k ∉ preD.map Prod.fst := by rw [e4]; exact hk
  have hkP : k ∉ preP.map Prod.fst := by rw [e5]; exact hk
  cases v with
  | vlist xs => exact absurd rfl (hv xs)
  | vstr s0 =>
    replace e3 : Except.map
        (fun r => ((Value.vstr r, Value.vstr s0) : Value × Value))
        (applyFieldFun f (.vstr s0)) = .ok (v', pv) := e3
    cases ha : applyFieldFun f (.vstr s0) with
    | error e =>
      rw [ha] at e3
      exact Except.noConfusion e3
    | ok s =>
      rw [ha] at e3
      replace e3 : Except.ok ((Value.vstr s, Value.vstr s0) :
        Value × Value) = .ok (v', pv) := e3
      injection e3 with e3
      injection e3 with f1 f2
      subst f1
      subst f2
      refine ⟨s, rfl, ?_, ?_⟩
      · rw [e1]
        exact assocLookup_append_not_mem preD k _ sufD hkD
      · rw [e2]
        exact assocLookup_append_not_mem preP k _ sufP hkP
  | vint n0 =>
    replace e3 : Except.map
        (fun r => ((Value.vstr r, Value.vint n0) : Value × Value))
        (applyFieldFun f (.vint n0)) = .ok (v', pv) := e3
    cases ha : applyFieldFun f (.vint n0) with
    | error e =>
      rw [ha] at e3
      exact Except.noConfusion e3
    | ok s =>
      rw [ha] at e3
      replace e3 : Except.ok ((Value.vstr s, Value.vint n0) :
        Value × Value) = .ok (v', pv) := e3
      injection e3 with e3
      injection e3 with f1 f2
      subst f1
      subst f2
      refine ⟨s, rfl, ?_, ?_⟩
      · rw [e1]
        exact assocLookup_append_not_mem preD k _ sufD hkD
      · rw [e2]
        exact assocLookup_append_not_mem preP k _ sufP hkP
  | vobj fs0 =>
    replace e3 : Except.map
        (fun s => ((Value.vstr s, Value.vobj fs0) : Value × Value))
        (applyFieldFun f (.vobj fs0)) = .ok (v', pv) := e3
    cases ha : applyFieldFun f (.vobj fs0) with
    | error e =>
      rw [ha] at e3
      exact Except.noConfusion e3
    | ok s =>
      rw [ha] at e3
      replace e3 : Except.ok ((Value.vstr s, Value.vobj fs0) :
        Value × Value) = .ok (v', pv) := e3
      injection e3 with e3
      injection e3 with f1 f2
      subst f1
      subst f2
      refine ⟨s, rfl, ?_, ?_⟩
      · rw [e1]
        exact assocLookup_append_not_mem preD k _ sufD hkD
      · rw [e2]
        exact assocLookup_append_not_mem preP k _ sufP hkP

/-- C4 counterexample: for the field `"score"` holding the empty list,
applying the `score` rule directly to the value (as the claim states,
"whatever its shape") would raise `AttributeError` (a list has no
`.replace`); `format_fields` instead succeeds and stores the empty
string, because a sequence value is sent through the per-element
branch. -/
theorem claim4_counterexample :
    format_fields FIELD_FORMATTERS [("score", Value.vlist [])] =
      .ok ([("score", Value.vstr "")], [("score", Value.vlist [])]) ∧
    applyFieldFun (.replaceFn "−" "-") (Value.vlist []) =
      .error .attributeError :=
  ⟨rfl, rfl⟩

theorem claim4_witness :
    ∃ s, applyFieldFun (FieldFun.replaceFn "−" "-") (Value.vstr "−") =
        Except.ok s ∧
      pyGet [("score", Value.vstr "-")] "score" = some (Value.vstr s) ∧
      pyGet [("score", Value.vstr "−")] "score" =
        some (Value.vstr "−") :=
  claim4_function_rule_applied FIELD_FORMATTERS [] []
    [("score", Value.vstr "-")] [("score", Value.vstr "−")] "score"
    (Value.vstr "−") (FieldFun.replaceFn "−" "-")
    (List.not_mem_nil "score") rfl
    (fun _xs hxs => Value.noConfusion hxs) rfl

/-- C5: a field whose value is a (non-string) sequence and whose name
has a rule is replaced by a single string: each mapping-shaped element
is formatted by the rule, other elements pass through unchanged (all of
them strings, or the join raises), the results are joined with exactly
three newlines in the original element order, and the joined string is
stored under the key while the caller's original list now holds the
per-element strings. -/
theorem claim5_sequence_field_joined (fmts : List (String × Formatter))
    (pre suf d' post : Dict) (k : String) (xs : List Value)
    (fmt : Formatter)
    (hk : k ∉ pre.map Prod.fst)
    (hf : assocLookup fmts k = some fmt)
    (h : format_fields fmts (pre ++ (k, .vlist xs) :: suf) = .ok (d', post)) :
    ∃ ss : List String,
      formatElems fmt xs = .ok (ss.map Value.vstr) ∧
      List.Forall₂ (fun o r =>
        ((∀ fs, o ≠ Value.vobj fs) ∧ r = o) ∨
        (∃ fs s, o = Value.vobj fs ∧ r = Value.vstr s ∧
          applyElem fmt fs = .ok s)) xs (ss.map Value.vstr) ∧
      pyGet d' k = some (.vstr (String.intercalate "\n\n\n" ss)) ∧
      pyGet post k = some (.vlist (ss.map Value.vstr)) := by
  obtain ⟨preD, preP, v', pv, sufD, sufP, e1, e2, e3, e4, e5⟩ :=
    format_fields_append_ok fmts pre k (.vlist xs) suf d' post h
  have hkD : k ∉ preD.map Prod.fst := by rw [e4]; exact hk
  have hkP : k ∉ preP.map Prod.fst := by rw [e5]; exact hk
  rw [formatPair.eq_def, hf] at e3
  replace e3 : (do
      let xs' ← formatElems fmt xs
      let s ← pyJoin xs'
      Except.ok ((Value.vstr s, Value.vlist xs') : Value × Value)) =
    .ok (v', pv) := e3
  cases he : formatElems fmt xs with
  | error e =>
    rw [he, exceptBind_error] at e3
    exact Except.noConfusion e3
  | ok xs' =>
    rw [he, exceptBind_ok] at e3
    cases hj : pyJoin xs' with
    | error e =>
      rw [hj, exceptBind_error] at e3
      exact Except.noConfusion e3
    | ok s =>
      rw [hj, exceptBind_ok] at e3
      replace e3 : Except.ok ((Value.vstr s, Value.vlist xs') :
        Value × Value) = .ok (v', pv) := e3
      injection e3 with e3
      injection e3 with f1 f2
      subst f1
      subst f2
      obtain ⟨ss, hss, hsj⟩ := pyJoin_ok xs' s hj
      subst hss
      subst hsj
      refine ⟨ss, rfl, formatElems_forall2 fmt xs _ he, ?_, ?_⟩
      · rw [e1]
        exact assocLookup_append_not_mem preD k _ sufD hkD
      · rw [e2]
        exact assocLookup_append_not_mem preP k _ sufP hkP

theorem claim5_witness :
    ∃ ss : List String,
      formatElems (Formatter.tmpl COMMENT_TEMPLATE)
        [Value.vobj [], Value.vstr "x"] = .ok (ss.map Value.vstr) ∧
      List.Forall₂ (fun o r =>
        ((∀ fs, o ≠ Value.vobj fs) ∧ r = o) ∨
        (∃ fs s, o = Value.vobj fs ∧ r = Value.vstr s ∧
          applyElem (Formatter.tmpl COMMENT_TEMPLATE) fs = .ok s))
        [Value.vobj [], Value.vstr "x"] (ss.map Value.vstr) ∧
      pyGet [("comments",
          Value.vstr "Comment by \nVotes: \nKarma: \n\n\n\n\nx")]
        "comments" =
        some (.vstr (String.intercalate "\n\n\n" ss)) ∧
      pyGet [("comments", Value.vlist
          [Value.vstr "Comment by \nVotes: \nKarma: \n\n",
           Value.vstr "x"])] "comments" =
        some (.vlist (ss.map Value.vstr)) :=
  claim5_sequence_field_joined FIELD_FORMATTERS [] []
    [("comments", Value.vstr "Comment by \nVotes: \nKarma: \n\n\n\n\nx")]
    [("comments", Value.vlist
      [Value.vstr "Comment by \nVotes: \nKarma: \n\n", Value.vstr "x"])]
    "comments" [Value.vobj [], Value.vstr "x"]
    (Formatter.tmpl COMMENT_TEMPLATE)
    (List.not_mem_nil "comments") rfl rfl

/-- C10: for a derived single-comment record whose comment is a mapping
with string `score` and `text` fields, the in-place replacement of the
comment list element performed by the prompt rendering pass does not
change the completion: rendering the completion on the post-prompt state
of the record gives exactly the same result as rendering it on a fresh
copy of the derived record. -/
theorem claim10_mutation_invisible (entry : Dict)
    (cf : List (String × Value)) (s t p : String) (post : Dict)
    (_hs : pyGet cf "score" = some (.vstr s))
    (_ht : pyGet cf "text" = some (.vstr t))
    (hp : format_prompt (pySet entry "comments" (.vlist [.vobj cf])) =
      .ok (p, post)) :
    format_completion post =
      format_completion (pySet entry "comments" (.vlist [.vobj cf])) := by
  rw [show format_prompt (pySet entry "comments" (.vlist [.vobj cf])) =
    (format_fields FIELD_FORMATTERS
      (pySet entry "comments" (.vlist [.vobj cf]))).map
      (fun dp => (render PROMPT_TEMPLATE dp.1, dp.2)) from rfl] at hp
  cases hff : format_fields FIELD_FORMATTERS
      (pySet entry "comments" (.vlist [.vobj cf])) with
  | error e =>
    rw [hff] at hp
    exact Except.noConfusion hp
  | ok dp =>
    rw [hff] at hp
    obtain ⟨d1, post1⟩ := dp
    replace hp : Except.ok (render PROMPT_TEMPLATE d1, post1) =
      .ok (p, post) := hp
    injection hp with hp
    injection hp with hp1 hp2
    subst hp2
    rw [show format_completion post1 =
      (format_fields FIELD_FORMATTERS post1).map
        (fun dp => (render COMPLETION_TEMPLATE dp.1, dp.2)) from rfl]
    rw [show format_completion (pySet entry "comments" (.vlist [.vobj cf])) =
      (format_fields FIELD_FORMATTERS
        (pySet entry "comments" (.vlist [.vobj cf]))).map
        (fun dp => (render COMPLETION_TEMPLATE dp.1, dp.2)) from rfl]
    rw [hff, format_fields_fix FIELD_FORMATTERS _ d1 post1 hff]

theorem claim10_witness :
    format_completion
      [("comments",
        Value.vlist [Value.vstr "Comment by \nVotes: \nKarma: 1\n\nhi"])] =
    format_completion (pySet [] "comments"
      (Value.vlist [Value.vobj
        [("score", Value.vstr "1"), ("text", Value.vstr "hi")]])) :=
  claim10_mutation_invisible []
    [("score", Value.vstr "1"), ("text", Value.vstr "hi")] "1" "hi"
    "\n\n\nby \nTags: \nVotes: \nKarma: \n\n\n\n%%%\n\n"
    [("comments",
      Value.vlist [Value.vstr "Comment by \nVotes: \nKarma: 1\n\nhi"])]
    rfl rfl rfl

end FineTune
